import Mathlib

/-!
Verification of the profile-discovery workflow of this repository
(`utility.py`: `extract_profiles`, `deduplicate_by_url`, `improved_search`;
`main.py`: `main`).

The Python code is dynamically typed, so the embedding works over an explicit
type `PyVal` of the Python values that flow through the workflow (JSON-style
values plus `PositionTitle` model instances).  Fallible operations (attribute
errors on non-dicts, iteration over non-iterables, hashing of unhashable
values) return `Except PyErr`.  External capabilities — the two LLM agents
(`Runner.run` on `loop_agent` / `filter_agent`) and the `json` standard-library
module (`json.loads` / `json.dumps`) — are parameters of the definitions:
theorems quantify over their behaviour.
-/

/-- Python exception classes that the embedded fragment can raise. -/
inductive PyErr where
  | attributeError
  | typeError
deriving DecidableEq

/-- The `PositionTitle` pydantic model of `utility.py`. -/
structure PositionTitle where
  position_title : String
  organization_name : String
  linkedin_profile : String
  experience : Int
  current_company : String
  current_company_experience : Int
deriving DecidableEq

/-- Dynamic Python values flowing through the workflow: JSON-style data
(`None`, bool, int, str, list, dict) and `PositionTitle` model instances.
Numbers are modelled as integers; no claim depends on float arithmetic. -/
inductive PyVal where
  | vnone
  | vbool (b : Bool)
  | vint (n : Int)
  | vstr (s : String)
  | vlist (xs : List PyVal)
  | vdict (fields : List (String × PyVal))
  | vpos (pt : PositionTitle)

/-- Python truthiness (`if x:`) for the modelled values. -/
def pyTruthy : PyVal → Bool
  | .vnone => false
  | .vbool b => b
  | .vint n => n != 0
  | .vstr s => s != ""
  | .vlist xs => !xs.isEmpty
  | .vdict fs => !fs.isEmpty
  | .vpos _ => true

/-- Whether a value is hashable (usable as a `set` element).  Lists and
dicts are unhashable; non-frozen pydantic v2 models are unhashable too. -/
def hashable : PyVal → Bool
  | .vlist _ => false
  | .vdict _ => false
  | .vpos _ => false
  | _ => true

/-- Numeric view of a value: Python treats `bool` as a subtype of `int`,
so `True == 1` and `False == 0`. -/
def pyNumVal : PyVal → Option Int
  | .vbool b => some (if b then 1 else 0)
  | .vint n => some n
  | _ => none

/-- Python `==` restricted to the hashable values that can reach the
URL sets of the workflow (deep container equality is never exercised there,
because membership tests on a `set` first require hashability). -/
def pyEq (a b : PyVal) : Bool :=
  match pyNumVal a, pyNumVal b with
  | some m, some n => m == n
  | some _, none => false
  | none, some _ => false
  | none, none =>
    match a, b with
    | .vnone, .vnone => true
    | .vstr s, .vstr t => s == t
    | _, _ => false

/-- Lookup in a dict, first binding of the key (keys are unique in dicts
produced by `json.loads` and by the workflow itself). -/
def dictGet (fs : List (String × PyVal)) (k : String) : Option PyVal :=
  match fs.find? (fun kv => kv.1 == k) with
  | some kv => some kv.2
  | none => none

/-- `k in d` for a dict. -/
def hasKey (fs : List (String × PyVal)) (k : String) : Bool :=
  (dictGet fs k).isSome

/-- `p.get('url')` value of a profile record, `None`-defaulted; `vnone`
for non-dicts (where the real call would raise, handled at call sites). -/
def urlOf (p : PyVal) : PyVal :=
  match p with
  | .vdict fs => (dictGet fs "url").getD .vnone
  | _ => .vnone

/-- Whether a value is a dict (`isinstance(x, dict)`). -/
def isDict : PyVal → Bool
  | .vdict _ => true
  | _ => false

/-- `for x in v`: the element sequence of an iterable value, `TypeError`
otherwise.  Iterating a str yields its characters, a dict its keys, a
pydantic model its `(field, value)` pairs. -/
def pyIter : PyVal → Except PyErr (List PyVal)
  | .vstr s => .ok (s.toList.map (fun c => .vstr (String.mk [c])))
  | .vlist xs => .ok xs
  | .vdict fs => .ok (fs.map (fun kv => .vstr kv.1))
  | .vpos pt => .ok
      [ .vlist [.vstr "position_title", .vstr pt.position_title],
        .vlist [.vstr "organization_name", .vstr pt.organization_name],
        .vlist [.vstr "linkedin_profile", .vstr pt.linkedin_profile],
        .vlist [.vstr "experience", .vint pt.experience],
        .vlist [.vstr "current_company", .vstr pt.current_company],
        .vlist [.vstr "current_company_experience", .vint pt.current_company_experience] ]
  | _ => .error .typeError

/-- Python `s.startswith(pre)`. -/
def pyStartsWith (s pre : String) : Bool := pre.toList.isPrefixOf s.toList

/-- Python `s.endswith(suf)`. -/
def pyEndsWith (s suf : String) : Bool := suf.toList.isSuffixOf s.toList

/-- Drop the last `n` characters (the `-n` end of a Python slice). -/
def listDropRight (n : Nat) (l : List Char) : List Char := l.take (l.length - n)

/-- Python `s.strip()`: whitespace removed from both ends. -/
def pyStrip (s : String) : String :=
  String.mk (((s.toList.dropWhile Char.isWhitespace).reverse.dropWhile
    Char.isWhitespace).reverse)

/-- The markdown-fence stripping shared by `extract_profiles` (utility.py
lines 87-90) and the filter-output parsing (lines 232-235):
`s[7:-3].strip()` after a ```` ```json ```` fence, `s[3:-3].strip()` after
a bare ```` ``` ```` fence. -/
def stripCodeFence (s : String) : String :=
  if pyStartsWith s "```json" && pyEndsWith s "```" then
    pyStrip (String.mk (listDropRight 3 (s.toList.drop 7)))
  else if pyStartsWith s "```" && pyEndsWith s "```" then
    pyStrip (String.mk (listDropRight 3 (s.toList.drop 3)))
  else s

/-- The base-shape record built by `extract_profiles` from a result dict
(utility.py lines 120-125). -/
def baseRecord (fs : List (String × PyVal)) : PyVal :=
  .vdict [("title", (dictGet fs "title").getD (.vstr "")),
          ("url", (dictGet fs "url").getD (.vstr "")),
          ("content", (dictGet fs "content").getD (.vstr "")),
          ("score", (dictGet fs "score").getD (.vint 0))]

/-- The base-shape record built from a `PositionTitle` instance
(utility.py lines 126-132). -/
def posRecord (pt : PositionTitle) : PyVal :=
  .vdict [("title", .vstr pt.position_title), ("url", .vstr pt.linkedin_profile),
          ("content", .vstr ""), ("score", .vint 0)]

/-- The element loop of `extract_profiles` (utility.py lines 118-132):
dict elements map to the base shape, `PositionTitle` elements are converted,
anything else is silently skipped. -/
def extractLoop : List PyVal → List PyVal
  | [] => []
  | r :: rest =>
    match r with
    | .vdict fs => baseRecord fs :: extractLoop rest
    | .vpos pt => posRecord pt :: extractLoop rest
    | _ => extractLoop rest

/-- `extract_profiles` (utility.py lines 72-134), parameterized by the
external `json.loads` capability (`none` models `json.JSONDecodeError`).
Note: line 99 (`if not isinstance(result, dict): return profiles`) returns
before the `elif isinstance(result, list)` branch of line 114 can ever be
reached, so a list input — native or parsed from fenced JSON text — falls
into the non-dict arm and yields the empty list. -/
def extract_profiles (jsonLoads : String → Option PyVal) (result : PyVal) :
    Except PyErr (List PyVal) :=
  if !pyTruthy result then .ok []
  else
    let parsed : Option PyVal :=
      match result with
      | .vstr s => jsonLoads (stripCodeFence s)
      | v => some v
    match parsed with
    | none => .ok []
    | some r =>
      match r with
      | .vdict fs =>
        let profile_data : Option PyVal :=
          if hasKey fs "results" then some ((dictGet fs "results").getD .vnone)
          else if hasKey fs "profiles" then some ((dictGet fs "profiles").getD .vnone)
          else none
        match profile_data with
        | none => .ok []
        | some pd =>
          if pyTruthy pd then
            match pyIter pd with
            | .error e => .error e
            | .ok rs => .ok (extractLoop rs)
          else .ok []
      | _ => .ok []

/-- Loop of `deduplicate_by_url` (utility.py lines 136-145) with the `seen`
set threaded through.  `p.get('url')` raises `AttributeError` on a non-dict;
`url not in seen` raises `TypeError` when `url` is unhashable. -/
def dedupAux : List PyVal → List PyVal → Except PyErr (List PyVal)
  | [], _ => .ok []
  | p :: rest, seen =>
    match p with
    | .vdict fs =>
      let url := (dictGet fs "url").getD .vnone
      if pyTruthy url then
        if hashable url then
          if seen.any (fun u => pyEq u url) then dedupAux rest seen
          else
            match dedupAux rest (url :: seen) with
            | .error e => .error e
            | .ok tl => .ok (p :: tl)
        else .error .typeError
      else dedupAux rest seen
    | _ => .error .attributeError

/-- `deduplicate_by_url` (utility.py lines 136-145). -/
def deduplicate_by_url (profiles : List PyVal) : Except PyErr (List PyVal) :=
  dedupAux profiles []

/-- The accumulation loop of `improved_search` (utility.py lines 240-247):
filtered records with a truthy, previously-unseen `url` enter
`new_profiles`, their urls enter `accumulated_urls`.  `p.get` raises
`AttributeError` on non-dict elements; set membership raises `TypeError`
on unhashable urls.  Returns `(new_profiles, accumulated_urls)`. -/
def accumulate : List PyVal → List PyVal → Except PyErr (List PyVal × List PyVal)
  | [], accU => .ok ([], accU)
  | p :: rest, accU =>
    match p with
    | .vdict fs =>
      let url := (dictGet fs "url").getD .vnone
      if pyTruthy url then
        if hashable url then
          if accU.any (fun u => pyEq u url) then accumulate rest accU
          else
            match accumulate rest (url :: accU) with
            | .error e => .error e
            | .ok (ns, au) => .ok (p :: ns, au)
        else .error .typeError
      else accumulate rest accU
    | _ => .error .attributeError

/-- Stage-A query construction (utility.py line 167). -/
def queryA (company t : String) : String := s!"{t} at {company}. "

/-- Stage-B query construction (utility.py line 197). -/
def queryB (company t : String) : String :=
  s!"{t} {company} site:linkedin.com get Name, Position, complete work history and experience and previous roles in content Section"

/-- The prompt handed to the search agent (utility.py lines 170 and 200). -/
def searchPrompt (query : String) : String := s!"Search for: {query}"

/-- One iteration of a stage's per-title loop (utility.py lines 169-180 and
199-210), for search capability `searchA` (indexed by the call counter `k`
within the attempt).  The whole body sits in a `try`: a raised search call,
a raised extraction, or a raised dedup leaves the loop running; the raw pool
keeps any extension already performed before the raise.  Returns the new
call counter, the raw pool and whether the stage `break`s. -/
def stageStep (searchA : Nat → String → Except PyErr PyVal)
    (jsonLoads : String → Option PyVal) (stop : Nat → Bool)
    (query : String) (k : Nat) (all_profiles : List PyVal) :
    Nat × List PyVal × Bool :=
  match searchA k (searchPrompt query) with
  | .error _ => (k + 1, all_profiles, false)
  | .ok finalOutput =>
    match extract_profiles jsonLoads finalOutput with
    | .error _ => (k + 1, all_profiles, false)
    | .ok profiles =>
      let all' := all_profiles ++ profiles
      match deduplicate_by_url all' with
      | .error _ => (k + 1, all', false)
      | .ok uniq => (k + 1, all', stop uniq.length)

/-- A stage's per-title loop: one search per title in order, stopping early
when `stop` fires on the deduplicated pool size. -/
def stageRun (searchA : Nat → String → Except PyErr PyVal)
    (jsonLoads : String → Option PyVal) (stop : Nat → Bool)
    (mkQuery : String → String) :
    List String → Nat → List PyVal → Nat × List PyVal
  | [], k, all => (k, all)
  | t :: rest, k, all =>
    let r := stageStep searchA jsonLoads stop (mkQuery t) k all
    if r.2.2 then (r.1, r.2.1)
    else stageRun searchA jsonLoads stop mkQuery rest r.1 r.2.1

/-- The two-stage orchestration of one attempt (utility.py lines 159-212):
stage A over every title with early stop `> 2 * desired_profile`, then —
only when the deduplicated count is still `< desired_profile` — stage B
over `position_titles[1:]` with early stop `>= desired_profile`.  The
dedup calls of lines 182 and 212 sit outside any `try`, so their errors
escape.  Returns the final call counter, raw pool and deduplicated pool. -/
def twoStagePool (searchA : Nat → String → Except PyErr PyVal)
    (jsonLoads : String → Option PyVal) (titles : List String)
    (company : String) (desired_profile : Nat) :
    Except PyErr (Nat × List PyVal × List PyVal) :=
  let r1 := stageRun searchA jsonLoads (fun n => decide (2 * desired_profile < n))
      (queryA company) titles 0 []
  match deduplicate_by_url r1.2 with
  | .error e => .error e
  | .ok uniq1 =>
    let r2 := if uniq1.length < desired_profile then
        stageRun searchA jsonLoads (fun n => decide (desired_profile ≤ n))
          (queryB company) (titles.drop 1) r1.1 r1.2
      else r1
    match deduplicate_by_url r2.2 with
    | .error e => .error e
    | .ok uniq2 => .ok (r2.1, r2.2, uniq2)

/-- The filter prompt (utility.py lines 220-224): `profiles_needed` is
`desired_profile - len(accumulated_profiles)` and `filter_input` is the
`json.dumps` serialization of the deduplicated pool. -/
def filterPrompt (jsonDumps : List PyVal → String) (uniq : List PyVal)
    (profiles_needed : Int) : String :=
  let filter_input := jsonDumps uniq
  s!"Select the {profiles_needed} best profiles from this list (as a JSON array): {filter_input}"

/-- Outcome of one retry-loop iteration: an immediate `return` with a final
result, or falling through to `attempt += 1` with the updated accumulator. -/
inductive AttemptOutcome where
  | done (result : List PyVal)
  | next (accP accU : List PyVal)

/-- One iteration of the retry loop of `improved_search` (utility.py lines
159-256) for attempt-local capabilities `searchA` (search agent) and
`filterA` (filter agent, yielding `final_output`; an `.error` models a
raised filter invocation, which no handler catches).  Filter-output parsing
failure (lines 229-239) yields the empty list; the accumulation loop and
the dedup of lines 182/212 can raise, and those errors escape. -/
def runOneAttempt (searchA : Nat → String → Except PyErr PyVal)
    (filterA : String → Except PyErr String)
    (jsonLoads : String → Option PyVal) (jsonDumps : List PyVal → String)
    (titles : List String) (company : String) (desired_profile : Nat)
    (accP accU : List PyVal) : Except PyErr AttemptOutcome :=
  match twoStagePool searchA jsonLoads titles company desired_profile with
  | .error e => .error e
  | .ok (_, _, uniq2) =>
    if uniq2.isEmpty then .ok (.next accP accU)
    else
      match filterA (filterPrompt jsonDumps uniq2
          ((desired_profile : Int) - (accP.length : Int))) with
      | .error e => .error e
      | .ok text =>
        let output := stripCodeFence (pyStrip text)
        let filtered : PyVal := (jsonLoads output).getD (.vlist [])
        match pyIter filtered with
        | .error e => .error e
        | .ok elems =>
          match accumulate elems accU with
          | .error e => .error e
          | .ok (newPs, accU') =>
            let accP' := accP ++ newPs
            if desired_profile ≤ accP'.length then
              .ok (.done (accP'.take desired_profile))
            else .ok (.next accP' accU')

/-- The retry loop `while attempt <= max_retries` of `improved_search`,
with `fuel = max_retries + 1 - attempt` remaining iterations and `a` the
current attempt index (the oracles `searchO`/`filterO` are indexed by it).
On exhaustion, line 258 returns `accumulated_profiles if
accumulated_profiles else []`. -/
def attemptLoop (searchO : Nat → Nat → String → Except PyErr PyVal)
    (filterO : Nat → String → Except PyErr String)
    (jsonLoads : String → Option PyVal) (jsonDumps : List PyVal → String)
    (titles : List String) (company : String) (desired_profile : Nat) :
    Nat → Nat → List PyVal → List PyVal → Except PyErr (List PyVal)
  | 0, _, accP, _ => .ok (if accP.isEmpty then [] else accP)
  | fuel + 1, a, accP, accU =>
    match runOneAttempt (searchO a) (filterO a) jsonLoads jsonDumps
        titles company desired_profile accP accU with
    | .error e => .error e
    | .ok (.done r) => .ok r
    | .ok (.next accP' accU') =>
      attemptLoop searchO filterO jsonLoads jsonDumps titles company
        desired_profile fuel (a + 1) accP' accU'

/-- `improved_search` (utility.py lines 147-258), parameterized by the
external capabilities: `searchO a k q` is the `loop_agent` run for the
`k`-th search call of attempt `a` with prompt `q`; `filterO a p` is the
`filter_agent` run of attempt `a` with prompt `p`; `jsonLoads`/`jsonDumps`
model the `json` module. -/
def improved_search (searchO : Nat → Nat → String → Except PyErr PyVal)
    (filterO : Nat → String → Except PyErr String)
    (jsonLoads : String → Option PyVal) (jsonDumps : List PyVal → String)
    (position_titles : List String) (company : String)
    (desired_profile : Nat) (max_retries : Nat) : Except PyErr (List PyVal) :=
  attemptLoop searchO filterO jsonLoads jsonDumps position_titles company
    desired_profile (max_retries + 1) 0 [] []

/-- The fallback position titles of `main.py` (lines 152-157). -/
def fallback_position_titles : List String :=
  ["VP of R&D", "Head of R&D", "CTO", "CIO",
   "Director of Innovation", "Head of Digital Transformation",
   "VP Engineering", "Chief Innovation Officer"]

/-- `main` (main.py lines 40-178) restricted to its workflow skeleton:
`titleGen` abstracts the title-generation step (the `root_agent` run
followed by `parse_position_titles`; `.error` models a raise inside the
`try`).  An empty parsed list triggers the hardcoded fallback titles, then
`improved_search` runs with `max_retries=2`; any exception reaching the
top-level `except` makes `main` return `None`.  (Named `main'` because Lean
reserves `main` for executable entry points.) -/
def main' (titleGen : Except PyErr (List String))
    (searchO : Nat → Nat → String → Except PyErr PyVal)
    (filterO : Nat → String → Except PyErr String)
    (jsonLoads : String → Option PyVal) (jsonDumps : List PyVal → String)
    (company : String) (desired_profile : Nat) : Option (List PyVal) :=
  match titleGen with
  | .error _ => none
  | .ok parsed =>
    let position_titles := if parsed.isEmpty then fallback_position_titles else parsed
    match improved_search searchO filterO jsonLoads jsonDumps position_titles
        company desired_profile 2 with
    | .ok l => some l
    | .error _ => none

/-! ## Claim C1: list-shaped search responses -/

/-- A native Python list holding one well-formed result mapping. -/
def listResultInput : PyVal :=
  .vlist [.vdict [("title", .vstr "t"), ("url", .vstr "u"),
                  ("content", .vstr "c"), ("score", .vint 1)]]

/-- JSON text encoding the same one-element array. -/
def listResultBody : String :=
  "[\x7b\"title\": \"t\", \"url\": \"u\", \"content\": \"c\", \"score\": 1\x7d]"

/-- The same array wrapped in a ```` ```json ```` markdown fence. -/
def listResultFenced : String := "```json" ++ listResultBody ++ "```"

/-- A `json.loads` behaviour that decodes `listResultBody` to the array. -/
def listResultLoads : String → Option PyVal :=
  fun s => if s = listResultBody then some listResultInput else none

/-- C1: contrary to the claim, `extract_profiles` does NOT treat a
structured sequence as the profile sequence: the early return of
utility.py line 99 (`if not isinstance(result, dict)`) fires before the
`elif isinstance(result, list)` branch of line 114 can run, so both a
native list and a fence-stripped JSON array parse yield the empty list
instead of one base-shape record per element. -/
theorem extract_profiles_drops_list_input :
    extract_profiles listResultLoads listResultInput = .ok [] ∧
    extract_profiles listResultLoads (.vstr listResultFenced) = .ok [] ∧
    listResultLoads (stripCodeFence listResultFenced) = some listResultInput :=
  ⟨rfl, rfl, rfl⟩

/-! ## Claims C7 and C8: deduplication -/

/-- A profile record in the sense of the data model: a mapping whose
`url` value, when present, is a string. -/
def recordOk (p : PyVal) : Bool :=
  match p with
  | .vdict fs =>
    match (dictGet fs "url").getD .vnone with
    | .vstr _ => true
    | .vnone => true
    | _ => false
  | _ => false

/-- The `url` of a record when it is a string, for the spec-side
formulation. -/
def urlString (p : PyVal) : Option String :=
  match urlOf p with
  | .vstr s => some s
  | _ => none

/-- Modelled from the spec's words (section 4.2): keep exactly the first
occurrence of each non-empty `url`, in first-seen order; records with an
empty or absent `url` are excluded entirely. -/
def dedupSpecAux : List PyVal → List String → List PyVal
  | [], _ => []
  | p :: rest, seen =>
    match urlString p with
    | some s =>
      if s != "" && !(decide (s ∈ seen)) then p :: dedupSpecAux rest (s :: seen)
      else dedupSpecAux rest seen
    | none => dedupSpecAux rest seen

/-- The spec-side contract of the Deduplicator, from section 4.2. -/
def dedupSpec (profiles : List PyVal) : List PyVal := dedupSpecAux profiles []

theorem any_map_vstr (seen : List String) (s : String) :
    (seen.map PyVal.vstr).any (fun u => pyEq u (.vstr s)) = decide (s ∈ seen) := by
  induction seen with
  | nil => simp
  | cons a rest ih =>
    simp only [List.map_cons, List.any_cons, ih, List.mem_cons]
    by_cases h : a = s
    · subst h; simp [pyEq, pyNumVal]
    · simp [pyEq, pyNumVal, h, Ne.symm h]

theorem dedupAux_eq_spec (S : List PyVal) :
    ∀ seen : List String, (∀ p ∈ S, recordOk p = true) →
    dedupAux S (seen.map PyVal.vstr) = .ok (dedupSpecAux S seen) := by
  induction S with
  | nil => intro seen h; rfl
  | cons p rest ih =>
    intro seen h
    have hp : recordOk p = true := h p (by simp)
    have hrest : ∀ q ∈ rest, recordOk q = true := fun q hq => h q (by simp [hq])
    cases p with
    | vdict fs =>
      rcases hurl : (dictGet fs "url").getD .vnone with _ | b | n | s | xs | gs | pt
      · -- url is None: both sides skip the record
        simp only [dedupAux, dedupSpecAux, urlString, urlOf, hurl, pyTruthy]
        exact ih seen hrest
      · simp [recordOk, hurl] at hp
      · simp [recordOk, hurl] at hp
      · -- url is a string
        by_cases hs : s = ""
        · subst hs
          simp only [dedupAux, dedupSpecAux, urlString, urlOf, hurl, pyTruthy]
          simpa using ih seen hrest
        · have hsb : (s != "") = true := by simp [hs]
          by_cases hmem : s ∈ seen
          · have hd : decide (s ∈ seen) = true := by simp [hmem]
            simp only [dedupAux, dedupSpecAux, urlString, urlOf, hurl, pyTruthy,
              hashable, any_map_vstr, hd, hsb]
            simpa using ih seen hrest
          · have hd : decide (s ∈ seen) = false := by simp [hmem]
            simp only [dedupAux, dedupSpecAux, urlString, urlOf, hurl, pyTruthy,
              hashable, any_map_vstr, hd, hsb]
            have hrec := ih (s :: seen) hrest
            simp only [List.map_cons] at hrec
            simp [hrec]
      · simp [recordOk, hurl] at hp
      · simp [recordOk, hurl] at hp
      · simp [recordOk, hurl] at hp
    | vnone => simp [recordOk] at hp
    | vbool b => simp [recordOk] at hp
    | vint n => simp [recordOk] at hp
    | vstr s => simp [recordOk] at hp
    | vlist xs => simp [recordOk] at hp
    | vpos pt => simp [recordOk] at hp

theorem dedupSpecAux_sublist (S : List PyVal) :
    ∀ seen : List String, (dedupSpecAux S seen).Sublist S := by
  induction S with
  | nil => intro seen; exact List.Sublist.refl []
  | cons p rest ih =>
    intro seen
    rcases hu : urlString p with _ | s
    · simp only [dedupSpecAux, hu]
      exact (ih seen).cons p
    · simp only [dedupSpecAux, hu]
      by_cases hc : (s != "" && !(decide (s ∈ seen))) = true
      · simp only [hc, if_true]
        exact (ih (s :: seen)).cons₂ p
      · simp only [Bool.not_eq_true] at hc
        simp only [hc, Bool.false_eq_true, if_false]
        exact (ih seen).cons p

theorem urlString_some {p : PyVal} {s : String} (h : urlString p = some s) :
    urlOf p = .vstr s := by
  rw [urlString] at h
  rcases hu : urlOf p with _ | b | n | t | xs | gs | pt <;> rw [hu] at h
  · simp at h
  · simp at h
  · simp at h
  · simp at h; rw [h]
  · simp at h
  · simp at h
  · simp at h

theorem dedupSpecAux_kept_urls (S : List PyVal) :
    ∀ seen : List String, ∀ p ∈ dedupSpecAux S seen,
      ∃ s, urlOf p = .vstr s ∧ s ≠ "" := by
  induction S with
  | nil => intro seen p hmem; simp [dedupSpecAux] at hmem
  | cons q rest ih =>
    intro seen p hmem
    rcases hu : urlString q with _ | s
    · simp only [dedupSpecAux, hu] at hmem
      exact ih seen p hmem
    · simp only [dedupSpecAux, hu] at hmem
      by_cases hc : (s != "" && !(decide (s ∈ seen))) = true
      · rw [if_pos hc] at hmem
        rcases List.mem_cons.mp hmem with h | h
        · subst h
          exact ⟨s, urlString_some hu, by simpa using ((Bool.and_eq_true _ _).mp hc).1⟩
        · exact ih (s :: seen) p h
      · rw [if_neg hc] at hmem
        exact ih seen p hmem

/-- C7: on profile-record inputs, `deduplicate_by_url` returns exactly the
spec's contract: the ordered subsequence keeping the first occurrence of
each non-empty `url`, with empty- or absent-`url` records never appearing
in the output. -/
theorem deduplicate_by_url_meets_spec (S : List PyVal)
    (h : ∀ p ∈ S, recordOk p = true) :
    deduplicate_by_url S = .ok (dedupSpec S) ∧
    (dedupSpec S).Sublist S ∧
    (∀ p ∈ dedupSpec S, ∃ s, urlOf p = .vstr s ∧ s ≠ "") :=
  ⟨dedupAux_eq_spec S [] h, dedupSpecAux_sublist S [],
   dedupSpecAux_kept_urls S []⟩

/-- Witness for C7 at a concrete input: a duplicate url, an empty-url
record and an absent-url record. -/
theorem deduplicate_by_url_meets_spec_witness :
    deduplicate_by_url
        [.vdict [("url", .vstr "u"), ("title", .vstr "a")],
         .vdict [("url", .vstr "")],
         .vdict [("title", .vstr "nourl")],
         .vdict [("url", .vstr "u"), ("title", .vstr "b")],
         .vdict [("url", .vstr "v")]]
      = .ok (dedupSpec
        [.vdict [("url", .vstr "u"), ("title", .vstr "a")],
         .vdict [("url", .vstr "")],
         .vdict [("title", .vstr "nourl")],
         .vdict [("url", .vstr "u"), ("title", .vstr "b")],
         .vdict [("url", .vstr "v")]]) ∧
    dedupSpec
        [.vdict [("url", .vstr "u"), ("title", .vstr "a")],
         .vdict [("url", .vstr "")],
         .vdict [("title", .vstr "nourl")],
         .vdict [("url", .vstr "u"), ("title", .vstr "b")],
         .vdict [("url", .vstr "v")]]
      = [.vdict [("url", .vstr "u"), ("title", .vstr "a")],
         .vdict [("url", .vstr "v")]] :=
  ⟨(deduplicate_by_url_meets_spec _ (by decide)).1, rfl⟩

theorem dedupAux_ok_props (S : List PyVal) :
    ∀ (seen : List PyVal) (L : List PyVal), dedupAux S seen = .ok L →
    (∀ p ∈ L, isDict p = true ∧ pyTruthy (urlOf p) = true ∧
      hashable (urlOf p) = true ∧
      seen.any (fun u => pyEq u (urlOf p)) = false) ∧
    List.Pairwise (fun p q => pyEq (urlOf p) (urlOf q) = false) L := by
  induction S with
  | nil =>
    intro seen L h
    simp only [dedupAux] at h
    cases h
    exact ⟨by simp, List.Pairwise.nil⟩
  | cons p rest ih =>
    intro seen L h
    cases p with
    | vdict fs =>
      simp only [dedupAux] at h
      by_cases ht : pyTruthy ((dictGet fs "url").getD .vnone) = true
      · rw [if_pos ht] at h
        by_cases hh : hashable ((dictGet fs "url").getD .vnone) = true
        · rw [if_pos hh] at h
          by_cases hany : seen.any (fun u => pyEq u ((dictGet fs "url").getD .vnone)) = true
          · rw [if_pos hany] at h
            exact ih seen L h
          · rw [if_neg hany] at h
            cases hrec : dedupAux rest ((dictGet fs "url").getD .vnone :: seen) with
            | error e => rw [hrec] at h; exact absurd h (by simp)
            | ok tl =>
              rw [hrec] at h
              cases h
              obtain ⟨hel, hpw⟩ := ih _ tl hrec
              have hfirst : ∀ q ∈ tl,
                  pyEq ((dictGet fs "url").getD .vnone) (urlOf q) = false ∧
                  seen.any (fun u => pyEq u (urlOf q)) = false := by
                intro q hq
                have := (hel q hq).2.2.2
                simp only [List.any_cons, Bool.or_eq_false_iff] at this
                exact this
              refine ⟨?_, ?_⟩
              · intro q hq
                rcases List.mem_cons.mp hq with hq | hq
                · subst hq
                  refine ⟨rfl, ?_, ?_, ?_⟩
                  · simpa [urlOf] using ht
                  · simpa [urlOf] using hh
                  · simpa [urlOf] using (Bool.not_eq_true _).mp hany
                · obtain ⟨h1, h2, h3, _⟩ := hel q hq
                  exact ⟨h1, h2, h3, (hfirst q hq).2⟩
              · refine List.pairwise_cons.mpr ⟨?_, hpw⟩
                intro q hq
                simpa [urlOf] using (hfirst q hq).1
        · rw [if_neg hh] at h
          exact absurd h (by simp)
      · rw [if_neg ht] at h
        exact ih seen L h
    | vnone => simp [dedupAux] at h
    | vbool b => simp [dedupAux] at h
    | vint n => simp [dedupAux] at h
    | vstr s => simp [dedupAux] at h
    | vlist xs => simp [dedupAux] at h
    | vpos pt => simp [dedupAux] at h

theorem dedupAux_fixpoint (L : List PyVal) :
    ∀ seen : List PyVal,
    (∀ p ∈ L, isDict p = true ∧ pyTruthy (urlOf p) = true ∧
      hashable (urlOf p) = true ∧
      seen.any (fun u => pyEq u (urlOf p)) = false) →
    List.Pairwise (fun p q => pyEq (urlOf p) (urlOf q) = false) L →
    dedupAux L seen = .ok L := by
  induction L with
  | nil => intro seen hel hpw; rfl
  | cons p rest ih =>
    intro seen hel hpw
    obtain ⟨hd, ht, hh, hany⟩ := hel p (by simp)
    obtain ⟨hfirst, hpw'⟩ := List.pairwise_cons.mp hpw
    cases p with
    | vdict fs =>
      have hu : urlOf (PyVal.vdict fs) = (dictGet fs "url").getD .vnone := rfl
      rw [hu] at ht hh hany
      simp only [dedupAux, ht, hh, if_true, hany, Bool.false_eq_true, if_false]
      have hrec : dedupAux rest ((dictGet fs "url").getD .vnone :: seen) = .ok rest := by
        refine ih _ ?_ hpw'
        intro q hq
        obtain ⟨h1, h2, h3, h4⟩ := hel q (by simp [hq])
        refine ⟨h1, h2, h3, ?_⟩
        simp only [List.any_cons, Bool.or_eq_false_iff]
        exact ⟨by simpa [urlOf] using hfirst q hq, h4⟩
      rw [hrec]
    | vnone => simp [isDict] at hd
    | vbool b => simp [isDict] at hd
    | vint n => simp [isDict] at hd
    | vstr s => simp [isDict] at hd
    | vlist xs => simp [isDict] at hd
    | vpos pt => simp [isDict] at hd

/-- C8: `deduplicate_by_url` is idempotent: on any input on which it
returns normally, re-deduplicating the result returns that same result
(and when it raises, composing it with itself raises identically). -/
theorem deduplicate_by_url_idempotent (S : List PyVal) :
    (∀ L, deduplicate_by_url S = .ok L → deduplicate_by_url L = .ok L) ∧
    (deduplicate_by_url S).bind deduplicate_by_url = deduplicate_by_url S := by
  have h1 : ∀ L, deduplicate_by_url S = .ok L → deduplicate_by_url L = .ok L := by
    intro L h
    obtain ⟨hel, hpw⟩ := dedupAux_ok_props S [] L h
    exact dedupAux_fixpoint L [] hel hpw
  refine ⟨h1, ?_⟩
  cases hS : deduplicate_by_url S with
  | error e => rfl
  | ok L => exact h1 L hS

/-- Witness for C8: deduplicating a two-copy list yields a one-copy list,
and re-deduplicating it is the identity. -/
theorem deduplicate_by_url_idempotent_witness :
    deduplicate_by_url [PyVal.vdict [("url", PyVal.vstr "u")]]
      = .ok [PyVal.vdict [("url", PyVal.vstr "u")]] :=
  (deduplicate_by_url_idempotent
      [PyVal.vdict [("url", PyVal.vstr "u")],
       PyVal.vdict [("url", PyVal.vstr "u")]]).1
    [PyVal.vdict [("url", PyVal.vstr "u")]] rfl

/-! ## Claims C3 and C9: stage control flow -/

theorem stageStep_break_iff (searchA : Nat → String → Except PyErr PyVal)
    (jsonLoads : String → Option PyVal) (stop : Nat → Bool) (query : String)
    (k : Nat) (all : List PyVal) (k' : Nat) (all' : List PyVal) :
    stageStep searchA jsonLoads stop query k all = (k', all', true) ↔
      (k' = k + 1 ∧ ∃ v ps u, searchA k (searchPrompt query) = .ok v ∧
        extract_profiles jsonLoads v = .ok ps ∧ all' = all ++ ps ∧
        deduplicate_by_url all' = .ok u ∧ stop u.length = true) := by
  constructor
  · intro h
    simp only [stageStep] at h
    cases hs : searchA k (searchPrompt query) with
    | error e => simp only [hs] at h; simp at h
    | ok v =>
      simp only [hs] at h
      cases hx : extract_profiles jsonLoads v with
      | error e => simp only [hx] at h; simp at h
      | ok ps =>
        simp only [hx] at h
        cases hd : deduplicate_by_url (all ++ ps) with
        | error e => simp only [hd] at h; simp at h
        | ok u =>
          simp only [hd, Prod.mk.injEq] at h
          obtain ⟨h1, h2, h3⟩ := h
          exact ⟨h1.symm, v, ps, u, rfl, hx, h2.symm, h2 ▸ hd, h3⟩
  · rintro ⟨hk, v, ps, u, hv, hx, ha, hd, hstop⟩
    subst hk; subst ha
    simp only [stageStep, hv, hx, hd, hstop]

theorem stageRun_break (searchA : Nat → String → Except PyErr PyVal)
    (jsonLoads : String → Option PyVal) (stop : Nat → Bool)
    (mkQuery : String → String) (t : String) (rest : List String)
    (k : Nat) (all : List PyVal) (k' : Nat) (all' : List PyVal)
    (h : stageStep searchA jsonLoads stop (mkQuery t) k all = (k', all', true)) :
    stageRun searchA jsonLoads stop mkQuery (t :: rest) k all = (k', all') := by
  simp [stageRun, h]

theorem stageRun_continue (searchA : Nat → String → Except PyErr PyVal)
    (jsonLoads : String → Option PyVal) (stop : Nat → Bool)
    (mkQuery : String → String) (t : String) (rest : List String)
    (k : Nat) (all : List PyVal) (k' : Nat) (all' : List PyVal)
    (h : stageStep searchA jsonLoads stop (mkQuery t) k all = (k', all', false)) :
    stageRun searchA jsonLoads stop mkQuery (t :: rest) k all
      = stageRun searchA jsonLoads stop mkQuery rest k' all' := by
  simp [stageRun, h]

theorem twoStagePool_skip (searchA : Nat → String → Except PyErr PyVal)
    (jsonLoads : String → Option PyVal) (titles : List String)
    (company : String) (d : Nat) (k1 : Nat) (all1 uniq1 : List PyVal)
    (hr1 : stageRun searchA jsonLoads (fun n => decide (2 * d < n))
      (queryA company) titles 0 [] = (k1, all1))
    (hd1 : deduplicate_by_url all1 = .ok uniq1) (hle : d ≤ uniq1.length) :
    twoStagePool searchA jsonLoads titles company d = .ok (k1, all1, uniq1) := by
  have hnlt : ¬ uniq1.length < d := Nat.not_lt.mpr hle
  simp only [twoStagePool, hr1, hd1, hnlt, if_false]

theorem twoStagePool_fallback (searchA : Nat → String → Except PyErr PyVal)
    (jsonLoads : String → Option PyVal) (titles : List String)
    (company : String) (d : Nat) (k1 : Nat) (all1 uniq1 : List PyVal)
    (k2 : Nat) (all2 : List PyVal)
    (hr1 : stageRun searchA jsonLoads (fun n => decide (2 * d < n))
      (queryA company) titles 0 [] = (k1, all1))
    (hd1 : deduplicate_by_url all1 = .ok uniq1) (hlt : uniq1.length < d)
    (hr2 : stageRun searchA jsonLoads (fun n => decide (d ≤ n))
      (queryB company) (titles.drop 1) k1 all1 = (k2, all2)) :
    twoStagePool searchA jsonLoads titles company d
      = match deduplicate_by_url all2 with
        | .error e => .error e
        | .ok uniq2 => .ok (k2, all2, uniq2) := by
  simp only [twoStagePool, hr1, hd1, hlt, if_true, hr2]

/-- C3: within one attempt, Stage A breaks out of its title loop exactly
when the deduplicated pool strictly exceeds `2 * desired_profile` (and
then iterates no further title); Stage B is entered exactly when the
deduplicated count after Stage A is strictly below `desired_profile`
(otherwise the attempt's pool is Stage A's), iterates over
`position_titles[1:]` only, and breaks exactly when the deduplicated
count reaches `desired_profile`. -/
theorem improved_search_stage_control
    (searchA : Nat → String → Except PyErr PyVal)
    (jsonLoads : String → Option PyVal)
    (titles : List String) (company : String) (d : Nat) :
    (∀ t rest k all k' all',
      (stageStep searchA jsonLoads (fun n => decide (2 * d < n)) (queryA company t) k all
          = (k', all', true) ↔
        (k' = k + 1 ∧ ∃ v ps u, searchA k (searchPrompt (queryA company t)) = .ok v ∧
          extract_profiles jsonLoads v = .ok ps ∧ all' = all ++ ps ∧
          deduplicate_by_url all' = .ok u ∧ 2 * d < u.length)) ∧
      (stageStep searchA jsonLoads (fun n => decide (2 * d < n)) (queryA company t) k all
          = (k', all', true) →
        stageRun searchA jsonLoads (fun n => decide (2 * d < n)) (queryA company)
          (t :: rest) k all = (k', all')) ∧
      (stageStep searchA jsonLoads (fun n => decide (2 * d < n)) (queryA company t) k all
          = (k', all', false) →
        stageRun searchA jsonLoads (fun n => decide (2 * d < n)) (queryA company)
          (t :: rest) k all
          = stageRun searchA jsonLoads (fun n => decide (2 * d < n)) (queryA company)
              rest k' all')) ∧
    (∀ t rest k all k' all',
      (stageStep searchA jsonLoads (fun n => decide (d ≤ n)) (queryB company t) k all
          = (k', all', true) ↔
        (k' = k + 1 ∧ ∃ v ps u, searchA k (searchPrompt (queryB company t)) = .ok v ∧
          extract_profiles jsonLoads v = .ok ps ∧ all' = all ++ ps ∧
          deduplicate_by_url all' = .ok u ∧ d ≤ u.length)) ∧
      (stageStep searchA jsonLoads (fun n => decide (d ≤ n)) (queryB company t) k all
          = (k', all', true) →
        stageRun searchA jsonLoads (fun n => decide (d ≤ n)) (queryB company)
          (t :: rest) k all = (k', all')) ∧
      (stageStep searchA jsonLoads (fun n => decide (d ≤ n)) (queryB company t) k all
          = (k', all', false) →
        stageRun searchA jsonLoads (fun n => decide (d ≤ n)) (queryB company)
          (t :: rest) k all
          = stageRun searchA jsonLoads (fun n => decide (d ≤ n)) (queryB company)
              rest k' all')) ∧
    (∀ k1 all1 uniq1,
      stageRun searchA jsonLoads (fun n => decide (2 * d < n)) (queryA company)
          titles 0 [] = (k1, all1) →
      deduplicate_by_url all1 = .ok uniq1 →
      ((d ≤ uniq1.length →
        twoStagePool searchA jsonLoads titles company d = .ok (k1, all1, uniq1)) ∧
       (uniq1.length < d → ∀ k2 all2,
        stageRun searchA jsonLoads (fun n => decide (d ≤ n)) (queryB company)
            (titles.drop 1) k1 all1 = (k2, all2) →
        ((∀ uniq2, deduplicate_by_url all2 = .ok uniq2 →
           twoStagePool searchA jsonLoads titles company d = .ok (k2, all2, uniq2)) ∧
         (∀ e, deduplicate_by_url all2 = .error e →
           twoStagePool searchA jsonLoads titles company d = .error e))))) := by
  refine ⟨?_, ?_, ?_⟩
  · intro t rest k all k' all'
    refine ⟨?_, stageRun_break _ _ _ _ t rest k all k' all',
      stageRun_continue _ _ _ _ t rest k all k' all'⟩
    simpa only [decide_eq_true_eq] using
      stageStep_break_iff searchA jsonLoads (fun n => decide (2 * d < n))
        (queryA company t) k all k' all'
  · intro t rest k all k' all'
    refine ⟨?_, stageRun_break _ _ _ _ t rest k all k' all',
      stageRun_continue _ _ _ _ t rest k all k' all'⟩
    simpa only [decide_eq_true_eq] using
      stageStep_break_iff searchA jsonLoads (fun n => decide (d ≤ n))
        (queryB company t) k all k' all'
  · intro k1 all1 uniq1 hr1 hd1
    refine ⟨twoStagePool_skip searchA jsonLoads titles company d k1 all1 uniq1 hr1 hd1,
      ?_⟩
    intro hlt k2 all2 hr2
    have hf := twoStagePool_fallback searchA jsonLoads titles company d
      k1 all1 uniq1 k2 all2 hr1 hd1 hlt hr2
    constructor
    · intro uniq2 hd2; rw [hf, hd2]
    · intro e hd2; rw [hf, hd2]

/-- A well-formed raw result mapping used by concrete scenarios. -/
def sampleResult : PyVal := .vdict [("url", .vstr "u")]

/-- The base-shape record extracted from `sampleResult`. -/
def sampleRecord : PyVal := baseRecord [("url", PyVal.vstr "u")]

/-- A search behaviour that always returns one structured result. -/
def okSearch : Nat → String → Except PyErr PyVal :=
  fun _ _ => .ok (.vdict [("results", .vlist [sampleResult])])

/-- A search behaviour that always raises. -/
def errSearch : Nat → String → Except PyErr PyVal := fun _ _ => .error .typeError

/-- A `json.loads` behaviour that always fails to decode. -/
def noLoads : String → Option PyVal := fun _ => none

/-- A trivial `json.dumps` behaviour. -/
def noDumps : List PyVal → String := fun _ => ""

/-- Witness for C3 at concrete inputs: a Stage-A break after the first
title, a Stage-A continuation, a skipped Stage B, and an executed Stage-B
fallback. -/
theorem improved_search_stage_control_witness :
    stageRun okSearch noLoads (fun n => decide (2 * 0 < n)) (queryA "c")
        ["t1", "t2"] 0 [] = (1, [sampleRecord]) ∧
    stageRun errSearch noLoads (fun n => decide (2 * 1 < n)) (queryA "c")
        ["t1", "t2"] 0 []
      = stageRun errSearch noLoads (fun n => decide (2 * 1 < n)) (queryA "c")
          ["t2"] 1 [] ∧
    twoStagePool okSearch noLoads ["t1", "t2"] "c" 0
      = .ok (1, [sampleRecord], [sampleRecord]) ∧
    twoStagePool errSearch noLoads ["t1", "t2"] "c" 1 = .ok (3, [], []) := by
  refine ⟨?_, ?_, ?_, ?_⟩
  · exact ((improved_search_stage_control okSearch noLoads ["t1", "t2"] "c" 0).1
      "t1" ["t2"] 0 [] 1 [sampleRecord]).2.1 rfl
  · exact ((improved_search_stage_control errSearch noLoads ["t1", "t2"] "c" 1).1
      "t1" ["t2"] 0 [] 1 []).2.2 rfl
  · exact ((improved_search_stage_control okSearch noLoads ["t1", "t2"] "c" 0).2.2
      1 [sampleRecord] [sampleRecord] rfl rfl).1 (by decide)
  · exact ((((improved_search_stage_control errSearch noLoads ["t1", "t2"] "c" 1).2.2
      2 [] [] rfl rfl).2 (by decide) 3 [] rfl).1 [] rfl)

/-- C9: a search-capability exception for one title is caught inside the
per-title loop: the title contributes no profiles and iteration continues
with the next title, in both stages; the stage never aborts. -/
theorem search_exception_continues_loop
    (searchA : Nat → String → Except PyErr PyVal)
    (jsonLoads : String → Option PyVal) (company : String) (d : Nat)
    (t : String) (rest : List String) (k : Nat) (all : List PyVal) :
    (∀ e, searchA k (searchPrompt (queryA company t)) = .error e →
      stageRun searchA jsonLoads (fun n => decide (2 * d < n)) (queryA company)
          (t :: rest) k all
        = stageRun searchA jsonLoads (fun n => decide (2 * d < n)) (queryA company)
            rest (k + 1) all) ∧
    (∀ e, searchA k (searchPrompt (queryB company t)) = .error e →
      stageRun searchA jsonLoads (fun n => decide (d ≤ n)) (queryB company)
          (t :: rest) k all
        = stageRun searchA jsonLoads (fun n => decide (d ≤ n)) (queryB company)
            rest (k + 1) all) := by
  constructor
  · intro e he
    exact stageRun_continue _ _ _ _ t rest k all (k + 1) all (by simp [stageStep, he])
  · intro e he
    exact stageRun_continue _ _ _ _ t rest k all (k + 1) all (by simp [stageStep, he])

/-- Witness for C9: the always-raising search skips the failing title and
the loop proceeds, in both stages. -/
theorem search_exception_continues_loop_witness :
    stageRun errSearch noLoads (fun n => decide (2 * 2 < n)) (queryA "co")
        ["x", "y"] 0 []
      = stageRun errSearch noLoads (fun n => decide (2 * 2 < n)) (queryA "co")
          ["y"] 1 [] ∧
    stageRun errSearch noLoads (fun n => decide (2 ≤ n)) (queryB "co")
        ["x", "y"] 0 []
      = stageRun errSearch noLoads (fun n => decide (2 ≤ n)) (queryB "co")
          ["y"] 1 [] :=
  ⟨(search_exception_continues_loop errSearch noLoads "co" 2 "x" ["y"] 0 []).1
      .typeError rfl,
   (search_exception_continues_loop errSearch noLoads "co" 2 "x" ["y"] 0 []).2
      .typeError rfl⟩

/-! ## Claims C2, C4, C5, C6: the retry and accumulation controller -/

theorem runOneAttempt_next_cases (searchA : Nat → String → Except PyErr PyVal)
    (filterA : String → Except PyErr String)
    (jsonLoads : String → Option PyVal) (jsonDumps : List PyVal → String)
    (titles : List String) (company : String) (d : Nat)
    (accP accU accP' accU' : List PyVal)
    (h : runOneAttempt searchA filterA jsonLoads jsonDumps titles company d accP accU
        = .ok (.next accP' accU')) :
    (accP' = accP ∧ accU' = accU) ∨
    (∃ elems newPs, accumulate elems accU = .ok (newPs, accU') ∧
      accP' = accP ++ newPs ∧ accP'.length < d) := by
  cases hpool : twoStagePool searchA jsonLoads titles company d with
  | error e =>
    simp only [runOneAttempt, hpool] at h
    exact absurd h (by simp)
  | ok trip =>
    obtain ⟨k2, all2, uniq2⟩ := trip
    simp only [runOneAttempt, hpool] at h
    by_cases hne : uniq2.isEmpty
    · rw [if_pos hne] at h
      simp only [Except.ok.injEq, AttemptOutcome.next.injEq] at h
      exact Or.inl ⟨h.1.symm, h.2.symm⟩
    · rw [if_neg hne] at h
      cases hfil : filterA (filterPrompt jsonDumps uniq2
          ((d : Int) - (accP.length : Int))) with
      | error e => simp only [hfil] at h; simp at h
      | ok text =>
        simp only [hfil] at h
        cases hiter : pyIter ((jsonLoads (stripCodeFence (pyStrip text))).getD
            (.vlist [])) with
        | error e => simp only [hiter] at h; simp at h
        | ok elems =>
          simp only [hiter] at h
          cases hacc : accumulate elems accU with
          | error e => simp only [hacc] at h; simp at h
          | ok pr =>
            obtain ⟨newPs, au⟩ := pr
            simp only [hacc] at h
            by_cases hlen : d ≤ (accP ++ newPs).length
            · rw [if_pos hlen] at h; simp at h
            · rw [if_neg hlen] at h
              simp only [Except.ok.injEq, AttemptOutcome.next.injEq] at h
              refine Or.inr ⟨elems, newPs, ?_, h.1.symm, ?_⟩
              · rw [← h.2]; exact hacc
              · rw [← h.1]
                exact Nat.not_le.mp hlen

theorem runOneAttempt_done_cases (searchA : Nat → String → Except PyErr PyVal)
    (filterA : String → Except PyErr String)
    (jsonLoads : String → Option PyVal) (jsonDumps : List PyVal → String)
    (titles : List String) (company : String) (d : Nat)
    (accP accU : List PyVal) (r : List PyVal)
    (h : runOneAttempt searchA filterA jsonLoads jsonDumps titles company d accP accU
        = .ok (.done r)) :
    ∃ elems newPs accU', accumulate elems accU = .ok (newPs, accU') ∧
      r = (accP ++ newPs).take d ∧ d ≤ (accP ++ newPs).length := by
  cases hpool : twoStagePool searchA jsonLoads titles company d with
  | error e =>
    simp only [runOneAttempt, hpool] at h
    exact absurd h (by simp)
  | ok trip =>
    obtain ⟨k2, all2, uniq2⟩ := trip
    simp only [runOneAttempt, hpool] at h
    by_cases hne : uniq2.isEmpty
    · rw [if_pos hne] at h; simp at h
    · rw [if_neg hne] at h
      cases hfil : filterA (filterPrompt jsonDumps uniq2
          ((d : Int) - (accP.length : Int))) with
      | error e => simp only [hfil] at h; simp at h
      | ok text =>
        simp only [hfil] at h
        cases hiter : pyIter ((jsonLoads (stripCodeFence (pyStrip text))).getD
            (.vlist [])) with
        | error e => simp only [hiter] at h; simp at h
        | ok elems =>
          simp only [hiter] at h
          cases hacc : accumulate elems accU with
          | error e => simp only [hacc] at h; simp at h
          | ok pr =>
            obtain ⟨newPs, au⟩ := pr
            simp only [hacc] at h
            by_cases hlen : d ≤ (accP ++ newPs).length
            · rw [if_pos hlen] at h
              simp only [Except.ok.injEq, AttemptOutcome.done.injEq] at h
              exact ⟨elems, newPs, au, hacc, h.symm, hlen⟩
            · rw [if_neg hlen] at h; simp at h

theorem attemptLoop_length (searchO : Nat → Nat → String → Except PyErr PyVal)
    (filterO : Nat → String → Except PyErr String)
    (jsonLoads : String → Option PyVal) (jsonDumps : List PyVal → String)
    (titles : List String) (company : String) (d : Nat) :
    ∀ (fuel a : Nat) (accP accU L : List PyVal), accP.length ≤ d →
    attemptLoop searchO filterO jsonLoads jsonDumps titles company d
      fuel a accP accU = .ok L →
    L.length ≤ d := by
  intro fuel
  induction fuel with
  | zero =>
    intro a accP accU L hlen h
    simp only [attemptLoop] at h
    by_cases he : accP.isEmpty
    · rw [if_pos he] at h
      simp only [Except.ok.injEq] at h
      simp [← h]
    · rw [if_neg he] at h
      simp only [Except.ok.injEq] at h
      rw [← h]; exact hlen
  | succ fuel ih =>
    intro a accP accU L hlen h
    simp only [attemptLoop] at h
    cases hrun : runOneAttempt (searchO a) (filterO a) jsonLoads jsonDumps
        titles company d accP accU with
    | error e => rw [hrun] at h; simp at h
    | ok outcome =>
      rw [hrun] at h
      cases outcome with
      | done r =>
        simp only [Except.ok.injEq] at h
        obtain ⟨elems, newPs, accU', hacc, hr, hle⟩ :=
          runOneAttempt_done_cases (searchO a) (filterO a) jsonLoads jsonDumps
            titles company d accP accU r hrun
        rw [← h, hr]
        simp [List.length_take]
      | next accP' accU' =>
        rcases runOneAttempt_next_cases (searchO a) (filterO a) jsonLoads jsonDumps
            titles company d accP accU accP' accU' hrun with
          ⟨h1, h2⟩ | ⟨elems, newPs, hacc, hP, hlt⟩
        · exact ih (a + 1) accP' accU' L (by rw [h1]; exact hlen) h
        · exact ih (a + 1) accP' accU' L (Nat.le_of_lt hlt) h

/-- C2: whatever the search and filter capabilities do, whenever
`improved_search` returns normally with `desired_profile ≥ 1`, the
returned sequence has at most `desired_profile` elements. -/
theorem improved_search_length_bound
    (searchO : Nat → Nat → String → Except PyErr PyVal)
    (filterO : Nat → String → Except PyErr String)
    (jsonLoads : String → Option PyVal) (jsonDumps : List PyVal → String)
    (position_titles : List String) (company : String)
    (desired_profile max_retries : Nat) (L : List PyVal)
    (_hd : 1 ≤ desired_profile)
    (h : improved_search searchO filterO jsonLoads jsonDumps position_titles
      company desired_profile max_retries = .ok L) :
    L.length ≤ desired_profile :=
  attemptLoop_length searchO filterO jsonLoads jsonDumps position_titles company
    desired_profile (max_retries + 1) 0 [] [] L (by simp) h

/-- An always-raising search behaviour indexed by attempt. -/
def errSearchO : Nat → Nat → String → Except PyErr PyVal :=
  fun _ _ _ => .error .typeError

/-- An always-raising filter behaviour indexed by attempt. -/
def errFilterO : Nat → String → Except PyErr String := fun _ _ => .error .typeError

/-- Witness for C2: the always-raising search yields the empty result,
within the bound. -/
theorem improved_search_length_bound_witness :
    improved_search errSearchO errFilterO noLoads noDumps ["t"] "c" 1 0
      = .ok [] ∧ List.length ([] : List PyVal) ≤ 1 :=
  ⟨rfl, improved_search_length_bound errSearchO errFilterO noLoads noDumps
    ["t"] "c" 1 0 [] (by decide) rfl⟩

theorem runOneAttempt_done_of (searchA : Nat → String → Except PyErr PyVal)
    (filterA : String → Except PyErr String)
    (jsonLoads : String → Option PyVal) (jsonDumps : List PyVal → String)
    (titles : List String) (company : String) (d : Nat)
    (accP accU : List PyVal) (k2 : Nat) (all2 uniq2 : List PyVal)
    (text : String) (elems newPs accU' : List PyVal)
    (hpool : twoStagePool searchA jsonLoads titles company d = .ok (k2, all2, uniq2))
    (hne : uniq2.isEmpty = false)
    (hfil : filterA (filterPrompt jsonDumps uniq2
      ((d : Int) - (accP.length : Int))) = .ok text)
    (hiter : pyIter ((jsonLoads (stripCodeFence (pyStrip text))).getD (.vlist []))
      = .ok elems)
    (hacc : accumulate elems accU = .ok (newPs, accU'))
    (hreach : d ≤ (accP ++ newPs).length) :
    runOneAttempt searchA filterA jsonLoads jsonDumps titles company d accP accU
      = .ok (.done ((accP ++ newPs).take d)) := by
  simp only [runOneAttempt, hpool, hne, Bool.false_eq_true, if_false, hfil,
    hiter, hacc, hreach, if_true]

/-- C5: as soon as an attempt's merge reaches the desired count, the loop
returns the first `desired_profile` accumulated profiles at once, for any
number of remaining retries; in particular when attempt 1 (index 0, empty
accumulator) reaches the count, no second attempt ever runs, whatever
`max_retries` is. -/
theorem improved_search_early_success
    (searchO : Nat → Nat → String → Except PyErr PyVal)
    (filterO : Nat → String → Except PyErr String)
    (jsonLoads : String → Option PyVal) (jsonDumps : List PyVal → String)
    (titles : List String) (company : String) (d : Nat) (a : Nat)
    (accP accU : List PyVal) (k2 : Nat) (all2 uniq2 : List PyVal)
    (text : String) (elems newPs accU' : List PyVal)
    (hpool : twoStagePool (searchO a) jsonLoads titles company d
      = .ok (k2, all2, uniq2))
    (hne : uniq2.isEmpty = false)
    (hfil : filterO a (filterPrompt jsonDumps uniq2
      ((d : Int) - (accP.length : Int))) = .ok text)
    (hiter : pyIter ((jsonLoads (stripCodeFence (pyStrip text))).getD (.vlist []))
      = .ok elems)
    (hacc : accumulate elems accU = .ok (newPs, accU'))
    (hreach : d ≤ (accP ++ newPs).length) :
    (∀ fuel, attemptLoop searchO filterO jsonLoads jsonDumps titles company d
        (fuel + 1) a accP accU = .ok ((accP ++ newPs).take d)) ∧
    (a = 0 → accP = [] → accU = [] → ∀ mr,
      improved_search searchO filterO jsonLoads jsonDumps titles company d mr
        = .ok ((accP ++ newPs).take d)) := by
  have hdone := runOneAttempt_done_of (searchO a) (filterO a) jsonLoads jsonDumps
    titles company d accP accU k2 all2 uniq2 text elems newPs accU'
    hpool hne hfil hiter hacc hreach
  have h1 : ∀ fuel, attemptLoop searchO filterO jsonLoads jsonDumps titles company d
      (fuel + 1) a accP accU = .ok ((accP ++ newPs).take d) := by
    intro fuel
    simp only [attemptLoop, hdone]
  refine ⟨h1, ?_⟩
  intro ha hP hU mr
  subst ha; subst hP; subst hU
  exact h1 mr

/-- The filtered record accepted in the concrete early-success scenario. -/
def filteredProfile : PyVal := .vdict [("url", .vstr "w")]

/-- A search behaviour (indexed by attempt) that always returns one
structured result. -/
def okSearchO : Nat → Nat → String → Except PyErr PyVal :=
  fun _ _ _ => .ok (.vdict [("results", .vlist [sampleResult])])

/-- A filter behaviour that always answers with the text `FILTERED`. -/
def okFilterO : Nat → String → Except PyErr String := fun _ _ => .ok "FILTERED"

/-- A `json.loads` behaviour decoding `FILTERED` to one filtered record. -/
def filteredLoads : String → Option PyVal :=
  fun s => if s = "FILTERED" then some (.vlist [filteredProfile]) else none

/-- Witness for C5: with the concrete capabilities, attempt 1 reaches the
desired count and the workflow returns at once, for `max_retries = 5`. -/
theorem improved_search_early_success_witness :
    improved_search okSearchO okFilterO filteredLoads noDumps ["t"] "c" 1 5
      = .ok [filteredProfile] :=
  (improved_search_early_success okSearchO okFilterO filteredLoads noDumps
      ["t"] "c" 1 0 [] [] 1 [sampleRecord] [sampleRecord] "FILTERED"
      [filteredProfile] [filteredProfile] [PyVal.vstr "w"]
      rfl rfl rfl rfl rfl (by decide)).2 rfl rfl rfl 5

theorem attemptLoop_congr
    (searchO searchO' : Nat → Nat → String → Except PyErr PyVal)
    (filterO filterO' : Nat → String → Except PyErr String)
    (jsonLoads : String → Option PyVal) (jsonDumps : List PyVal → String)
    (titles : List String) (company : String) (d : Nat) :
    ∀ (fuel a : Nat) (accP accU : List PyVal),
    (∀ b, b < a + fuel → searchO b = searchO' b) →
    (∀ b, b < a + fuel → filterO b = filterO' b) →
    attemptLoop searchO filterO jsonLoads jsonDumps titles company d
      fuel a accP accU
      = attemptLoop searchO' filterO' jsonLoads jsonDumps titles company d
          fuel a accP accU := by
  intro fuel
  induction fuel with
  | zero => intro a accP accU hs hf; rfl
  | succ fuel ih =>
    intro a accP accU hs hf
    have hsa : searchO a = searchO' a := hs a (by omega)
    have hfa : filterO a = filterO' a := hf a (by omega)
    simp only [attemptLoop, hsa, hfa]
    cases runOneAttempt (searchO' a) (filterO' a) jsonLoads jsonDumps
        titles company d accP accU with
    | error e => rfl
    | ok outcome =>
      cases outcome with
      | done r => rfl
      | next accP' accU' =>
        exact ih (a + 1) accP' accU' (fun b hb => hs b (by omega))
          (fun b hb => hf b (by omega))

/-- The search call contributes no usable profiles: either it raises, or
its extraction yields the empty list (or itself raises, which the
per-title handler also swallows). -/
def noProfiles (jsonLoads : String → Option PyVal) : Except PyErr PyVal → Prop
  | .error _ => True
  | .ok v => extract_profiles jsonLoads v = .ok [] ∨
      ∃ e, extract_profiles jsonLoads v = .error e

theorem stageRun_empty (searchA : Nat → String → Except PyErr PyVal)
    (jsonLoads : String → Option PyVal) (stop : Nat → Bool)
    (mkQuery : String → String)
    (h : ∀ k q, noProfiles jsonLoads (searchA k q)) :
    ∀ (ts : List String) (k : Nat),
      (stageRun searchA jsonLoads stop mkQuery ts k []).2 = [] := by
  intro ts
  induction ts with
  | nil => intro k; rfl
  | cons t rest ih =>
    intro k
    have ht := h k (searchPrompt (mkQuery t))
    cases hs : searchA k (searchPrompt (mkQuery t)) with
    | error e => simp [stageRun, stageStep, hs, ih]
    | ok v =>
      rw [hs] at ht
      simp only [noProfiles] at ht
      rcases ht with hx | ⟨e, hx⟩
      · cases hstop : stop 0 <;>
          simp [stageRun, stageStep, hs, hx, deduplicate_by_url, dedupAux,
            hstop, ih]
      · simp [stageRun, stageStep, hs, hx, ih]

theorem twoStagePool_empty (searchA : Nat → String → Except PyErr PyVal)
    (jsonLoads : String → Option PyVal) (titles : List String)
    (company : String) (d : Nat)
    (h : ∀ k q, noProfiles jsonLoads (searchA k q)) :
    ∃ k2, twoStagePool searchA jsonLoads titles company d = .ok (k2, [], []) := by
  have h1 := stageRun_empty searchA jsonLoads (fun n => decide (2 * d < n))
    (queryA company) h titles 0
  rcases hr1 : stageRun searchA jsonLoads (fun n => decide (2 * d < n))
      (queryA company) titles 0 [] with ⟨k1, all1⟩
  rw [hr1] at h1
  simp only at h1
  subst h1
  by_cases hd0 : 0 < d
  · have h2 := stageRun_empty searchA jsonLoads (fun n => decide (d ≤ n))
      (queryB company) h (titles.drop 1) k1
    rcases hr2 : stageRun searchA jsonLoads (fun n => decide (d ≤ n))
        (queryB company) (titles.drop 1) k1 [] with ⟨k2, all2⟩
    rw [hr2] at h2
    simp only at h2
    subst h2
    refine ⟨k2, ?_⟩
    simp only [twoStagePool, hr1, deduplicate_by_url, dedupAux,
      List.length_nil, hd0, if_true, hr2]
  · refine ⟨k1, ?_⟩
    simp only [twoStagePool, hr1, deduplicate_by_url, dedupAux,
      List.length_nil, hd0, if_false]

theorem attemptLoop_empty (searchO : Nat → Nat → String → Except PyErr PyVal)
    (filterO : Nat → String → Except PyErr String)
    (jsonLoads : String → Option PyVal) (jsonDumps : List PyVal → String)
    (titles : List String) (company : String) (d : Nat)
    (h : ∀ a k q, noProfiles jsonLoads (searchO a k q)) :
    ∀ (fuel a : Nat), attemptLoop searchO filterO jsonLoads jsonDumps
      titles company d fuel a [] [] = .ok [] := by
  intro fuel
  induction fuel with
  | zero => intro a; rfl
  | succ fuel ih =>
    intro a
    obtain ⟨k2, hpool⟩ := twoStagePool_empty (searchO a) jsonLoads titles
      company d (h a)
    simp only [attemptLoop, runOneAttempt, hpool, List.isEmpty_nil, if_true]
    exact ih (a + 1)

/-- C4: the retry loop runs at most `max_retries + 1` attempts — the
result depends on the capabilities only at attempt indices `≤ max_retries`
— and when every search call yields zero usable profiles, all attempts
pass without accumulating anything and the workflow returns the empty
list as a normal value, not an error. -/
theorem improved_search_exhaustion
    (searchO searchO' : Nat → Nat → String → Except PyErr PyVal)
    (filterO filterO' : Nat → String → Except PyErr String)
    (jsonLoads : String → Option PyVal) (jsonDumps : List PyVal → String)
    (titles : List String) (company : String) (d mr : Nat) :
    ((∀ a, a ≤ mr → searchO a = searchO' a) →
     (∀ a, a ≤ mr → filterO a = filterO' a) →
     improved_search searchO filterO jsonLoads jsonDumps titles company d mr
       = improved_search searchO' filterO' jsonLoads jsonDumps titles company d mr) ∧
    ((∀ a k q, noProfiles jsonLoads (searchO a k q)) →
     improved_search searchO filterO jsonLoads jsonDumps titles company d mr
       = .ok []) := by
  constructor
  · intro hs hf
    exact attemptLoop_congr searchO searchO' filterO filterO' jsonLoads jsonDumps
      titles company d (mr + 1) 0 [] []
      (fun b hb => hs b (by omega)) (fun b hb => hf b (by omega))
  · intro h
    exact attemptLoop_empty searchO filterO jsonLoads jsonDumps titles company d
      h (mr + 1) 0

/-- A search behaviour that raises on attempts 0 and 1 and returns results
from attempt 2 on — used to witness that attempts beyond `max_retries`
cannot influence the result. -/
def highSearchO : Nat → Nat → String → Except PyErr PyVal :=
  fun a => if a ≤ 1 then errSearchO a else okSearchO a

/-- Witness for C4: with `max_retries = 1`, changing the search capability
only from attempt 2 on leaves the result unchanged, and the always-failing
search exhausts all attempts into `.ok []`. -/
theorem improved_search_exhaustion_witness :
    improved_search errSearchO errFilterO noLoads noDumps ["t"] "c" 2 1
      = improved_search highSearchO errFilterO noLoads noDumps ["t"] "c" 2 1 ∧
    improved_search errSearchO errFilterO noLoads noDumps ["t"] "c" 2 1
      = .ok [] :=
  ⟨(improved_search_exhaustion errSearchO highSearchO errFilterO errFilterO
      noLoads noDumps ["t"] "c" 2 1).1
      (fun a ha => by simp [highSearchO, ha]) (fun a _ => rfl),
   (improved_search_exhaustion errSearchO highSearchO errFilterO errFilterO
      noLoads noDumps ["t"] "c" 2 1).2
      (fun _ _ _ => True.intro)⟩

theorem accumulate_spec (elems : List PyVal) :
    ∀ (accU newPs accU' : List PyVal),
    accumulate elems accU = .ok (newPs, accU') →
    (∀ u ∈ accU, u ∈ accU') ∧
    (∀ u, u ∈ accU' ↔ u ∈ accU ∨ ∃ p ∈ newPs, u = urlOf p) ∧
    (∀ p ∈ newPs, isDict p = true ∧ pyTruthy (urlOf p) = true ∧
      hashable (urlOf p) = true ∧
      accU.any (fun u => pyEq u (urlOf p)) = false) ∧
    List.Pairwise (fun p q => pyEq (urlOf p) (urlOf q) = false) newPs := by
  induction elems with
  | nil =>
    intro accU newPs accU' h
    simp only [accumulate, Except.ok.injEq, Prod.mk.injEq] at h
    obtain ⟨h1, h2⟩ := h
    subst h1; subst h2
    refine ⟨fun u hu => hu, fun u => by simp, by simp, List.Pairwise.nil⟩
  | cons p rest ih =>
    intro accU newPs accU' h
    cases p with
    | vdict fs =>
      simp only [accumulate] at h
      by_cases ht : pyTruthy ((dictGet fs "url").getD .vnone) = true
      · rw [if_pos ht] at h
        by_cases hh : hashable ((dictGet fs "url").getD .vnone) = true
        · rw [if_pos hh] at h
          by_cases hany : accU.any
              (fun u => pyEq u ((dictGet fs "url").getD .vnone)) = true
          · rw [if_pos hany] at h
            exact ih accU newPs accU' h
          · rw [if_neg hany] at h
            cases hrec : accumulate rest ((dictGet fs "url").getD .vnone :: accU) with
            | error e => rw [hrec] at h; exact absurd h (by simp)
            | ok pr =>
              obtain ⟨ns, au⟩ := pr
              rw [hrec] at h
              simp only [Except.ok.injEq, Prod.mk.injEq] at h
              obtain ⟨h1, h2⟩ := h
              subst h1; subst h2
              obtain ⟨m1, m2, m3, m4⟩ := ih _ ns au hrec
              have hu : urlOf (PyVal.vdict fs) = (dictGet fs "url").getD .vnone := rfl
              have hanyf := (Bool.not_eq_true _).mp hany
              refine ⟨?_, ?_, ?_, ?_⟩
              · intro u hu'
                exact m1 u (List.mem_cons_of_mem _ hu')
              · intro u
                rw [m2 u]
                simp only [List.mem_cons, hu]
                constructor
                · rintro (⟨h' | h'⟩ | ⟨q, hq, h'⟩)
                  · exact Or.inr ⟨.vdict fs, Or.inl rfl, h'⟩
                  · exact Or.inl h'
                  · exact Or.inr ⟨q, Or.inr hq, h'⟩
                · rintro (h' | ⟨q, hq, h'⟩)
                  · exact Or.inl (Or.inr h')
                  · rcases hq with hq' | hq'
                    · subst hq'; exact Or.inl (Or.inl h')
                    · exact Or.inr ⟨q, hq', h'⟩
              · intro q hq
                rcases List.mem_cons.mp hq with hq' | hq'
                · subst hq'
                  exact ⟨rfl, by rw [hu]; exact ht, by rw [hu]; exact hh,
                    by rw [hu]; exact hanyf⟩
                · obtain ⟨g1, g2, g3, g4⟩ := m3 q hq'
                  refine ⟨g1, g2, g3, ?_⟩
                  simp only [List.any_cons, Bool.or_eq_false_iff] at g4
                  exact g4.2
              · refine List.pairwise_cons.mpr ⟨?_, m4⟩
                intro q hq
                have := (m3 q hq).2.2.2
                simp only [List.any_cons, Bool.or_eq_false_iff] at this
                rw [hu]
                exact this.1
        · rw [if_neg hh] at h
          exact absurd h (by simp)
      · rw [if_neg ht] at h
        exact ih accU newPs accU' h
    | vnone => simp [accumulate] at h
    | vbool b => simp [accumulate] at h
    | vint n => simp [accumulate] at h
    | vstr s => simp [accumulate] at h
    | vlist xs => simp [accumulate] at h
    | vpos pt => simp [accumulate] at h

/-- The cross-attempt accumulator invariant: accumulated records have
truthy hashable urls, pairwise distinct under Python equality, and the
URL set holds exactly the urls of the accumulated records. -/
def AccInv (accP accU : List PyVal) : Prop :=
  (∀ p ∈ accP, pyTruthy (urlOf p) = true ∧ hashable (urlOf p) = true) ∧
  List.Pairwise (fun p q => pyEq (urlOf p) (urlOf q) = false) accP ∧
  (∀ u, u ∈ accU ↔ ∃ p ∈ accP, u = urlOf p)

theorem any_eq_false_mem {l : List PyVal} {f : PyVal → Bool} {u : PyVal}
    (h : l.any f = false) (hu : u ∈ l) : f u = false := by
  by_contra hc
  have : l.any f = true := List.any_eq_true.mpr ⟨u, hu, (Bool.not_eq_false _).mp hc⟩
  rw [h] at this
  exact absurd this (by simp)

theorem accumulate_preserves_inv (elems accP accU newPs accU' : List PyVal)
    (hinv : AccInv accP accU)
    (h : accumulate elems accU = .ok (newPs, accU')) :
    AccInv (accP ++ newPs) accU' ∧ (∀ u ∈ accU, u ∈ accU') := by
  obtain ⟨m1, m2, m3, m4⟩ := accumulate_spec elems accU newPs accU' h
  obtain ⟨i1, i2, i3⟩ := hinv
  refine ⟨⟨?_, ?_, ?_⟩, m1⟩
  · intro p hp
    rcases List.mem_append.mp hp with hp' | hp'
    · exact i1 p hp'
    · exact ⟨(m3 p hp').2.1, (m3 p hp').2.2.1⟩
  · rw [List.pairwise_append]
    refine ⟨i2, m4, ?_⟩
    intro p hp q hq
    have hmem : urlOf p ∈ accU := (i3 (urlOf p)).mpr ⟨p, hp, rfl⟩
    exact @any_eq_false_mem accU (fun u => pyEq u (urlOf q)) (urlOf p)
      (m3 q hq).2.2.2 hmem
  · intro u
    rw [m2 u, i3 u]
    constructor
    · rintro (⟨p, hp, h'⟩ | ⟨p, hp, h'⟩)
      · exact ⟨p, List.mem_append.mpr (Or.inl hp), h'⟩
      · exact ⟨p, List.mem_append.mpr (Or.inr hp), h'⟩
    · rintro ⟨p, hp, h'⟩
      rcases List.mem_append.mp hp with hp' | hp'
      · exact Or.inl ⟨p, hp', h'⟩
      · exact Or.inr ⟨p, hp', h'⟩

theorem attemptLoop_result_inv
    (searchO : Nat → Nat → String → Except PyErr PyVal)
    (filterO : Nat → String → Except PyErr String)
    (jsonLoads : String → Option PyVal) (jsonDumps : List PyVal → String)
    (titles : List String) (company : String) (d : Nat) :
    ∀ (fuel a : Nat) (accP accU L : List PyVal), AccInv accP accU →
    attemptLoop searchO filterO jsonLoads jsonDumps titles company d
      fuel a accP accU = .ok L →
    (∀ p ∈ L, pyTruthy (urlOf p) = true) ∧
    List.Pairwise (fun p q => pyEq (urlOf p) (urlOf q) = false) L := by
  intro fuel
  induction fuel with
  | zero =>
    intro a accP accU L hinv h
    simp only [attemptLoop] at h
    by_cases he : accP.isEmpty
    · rw [if_pos he] at h
      simp only [Except.ok.injEq] at h
      subst h
      exact ⟨by simp, List.Pairwise.nil⟩
    · rw [if_neg he] at h
      simp only [Except.ok.injEq] at h
      subst h
      exact ⟨fun p hp => (hinv.1 p hp).1, hinv.2.1⟩
  | succ fuel ih =>
    intro a accP accU L hinv h
    simp only [attemptLoop] at h
    cases hrun : runOneAttempt (searchO a) (filterO a) jsonLoads jsonDumps
        titles company d accP accU with
    | error e => rw [hrun] at h; simp at h
    | ok outcome =>
      rw [hrun] at h
      cases outcome with
      | done r =>
        simp only [Except.ok.injEq] at h
        subst h
        obtain ⟨elems, newPs, accU', hacc, hr, hle⟩ :=
          runOneAttempt_done_cases (searchO a) (filterO a) jsonLoads jsonDumps
            titles company d accP accU r hrun
        obtain ⟨⟨j1, j2, j3⟩, _⟩ :=
          accumulate_preserves_inv elems accP accU newPs accU' hinv hacc
        subst hr
        refine ⟨?_, j2.sublist (List.take_sublist d _)⟩
        intro p hp
        exact (j1 p (List.take_subset d _ hp)).1
      | next accP' accU' =>
        rcases runOneAttempt_next_cases (searchO a) (filterO a) jsonLoads jsonDumps
            titles company d accP accU accP' accU' hrun with
          ⟨h1, h2⟩ | ⟨elems, newPs, hacc, hP, hlt⟩
        · subst h1; subst h2
          exact ih (a + 1) accP' accU' L hinv h
        · obtain ⟨jinv, _⟩ :=
            accumulate_preserves_inv elems accP accU newPs accU' hinv hacc
          subst hP
          exact ih (a + 1) (accP ++ newPs) accU' L jinv h

/-- C6: within one `improved_search` invocation the accumulator only
grows — a `next` outcome extends `accumulated_profiles` and never removes
a URL from `accumulated_urls`, preserving the invariant that accumulated
records carry non-empty (truthy) urls, pairwise distinct, mirrored exactly
by the URL set — and consequently every normally-returned result consists
of records with truthy, pairwise-distinct urls. -/
theorem improved_search_accumulator_monotone
    (jsonLoads : String → Option PyVal) (jsonDumps : List PyVal → String)
    (titles : List String) (company : String) (d : Nat) :
    (∀ (searchA : Nat → String → Except PyErr PyVal)
       (filterA : String → Except PyErr String)
       (accP accU accP' accU' : List PyVal),
      runOneAttempt searchA filterA jsonLoads jsonDumps titles company d
          accP accU = .ok (.next accP' accU') →
      (∀ u ∈ accU, u ∈ accU') ∧ (∃ t, accP' = accP ++ t) ∧
      (AccInv accP accU → AccInv accP' accU')) ∧
    (∀ (searchO : Nat → Nat → String → Except PyErr PyVal)
       (filterO : Nat → String → Except PyErr String) (mr : Nat) (L : List PyVal),
      improved_search searchO filterO jsonLoads jsonDumps titles company d mr
        = .ok L →
      (∀ p ∈ L, pyTruthy (urlOf p) = true) ∧
      List.Pairwise (fun p q => pyEq (urlOf p) (urlOf q) = false) L) := by
  constructor
  · intro searchA filterA accP accU accP' accU' hrun
    rcases runOneAttempt_next_cases searchA filterA jsonLoads jsonDumps
        titles company d accP accU accP' accU' hrun with
      ⟨h1, h2⟩ | ⟨elems, newPs, hacc, hP, hlt⟩
    · subst h1; subst h2
      exact ⟨fun u hu => hu, ⟨[], by simp⟩, fun hi => hi⟩
    · subst hP
      refine ⟨?_, ⟨newPs, rfl⟩, ?_⟩
      · intro u hu
        exact (accumulate_spec elems accU newPs accU' hacc).1 u hu
      · intro hinv
        exact (accumulate_preserves_inv elems accP accU newPs accU' hinv hacc).1
  · intro searchO filterO mr L h
    exact attemptLoop_result_inv searchO filterO jsonLoads jsonDumps titles
      company d (mr + 1) 0 [] [] L ⟨by simp, List.Pairwise.nil, by simp⟩ h

/-- Witness for C6: a no-op attempt preserves the empty accumulator, and
the concrete successful run returns one record with a truthy url. -/
theorem improved_search_accumulator_monotone_witness :
    ((∀ u ∈ ([] : List PyVal), u ∈ ([] : List PyVal)) ∧
     (∃ t, ([] : List PyVal) = [] ++ t) ∧
     (AccInv [] [] → AccInv [] [])) ∧
    ((∀ p ∈ [filteredProfile], pyTruthy (urlOf p) = true) ∧
     List.Pairwise (fun p q => pyEq (urlOf p) (urlOf q) = false)
       [filteredProfile]) :=
  ⟨(improved_search_accumulator_monotone noLoads noDumps ["t"] "c" 1).1
      (errSearchO 0) (errFilterO 0) [] [] [] [] rfl,
   (improved_search_accumulator_monotone filteredLoads noDumps ["t"] "c" 1).2
      okSearchO okFilterO 5 [filteredProfile] rfl⟩

/-! ## Claim C10: unhandled accumulation error on non-mapping filter output -/

theorem runOneAttempt_badfilter (searchA : Nat → String → Except PyErr PyVal)
    (filterA : String → Except PyErr String)
    (jsonLoads : String → Option PyVal) (jsonDumps : List PyVal → String)
    (titles : List String) (company : String) (d : Nat)
    (accP accU : List PyVal) (k2 : Nat) (all2 uniq2 : List PyVal)
    (text : String) (v e0 : PyVal) (rest' : List PyVal)
    (hpool : twoStagePool searchA jsonLoads titles company d = .ok (k2, all2, uniq2))
    (hne : uniq2.isEmpty = false)
    (hfil : filterA (filterPrompt jsonDumps uniq2
      ((d : Int) - (accP.length : Int))) = .ok text)
    (hparse : jsonLoads (stripCodeFence (pyStrip text)) = some v)
    (hiter : pyIter v = .ok (e0 :: rest'))
    (he0 : isDict e0 = false) :
    runOneAttempt searchA filterA jsonLoads jsonDumps titles company d accP accU
      = .error .attributeError := by
  have hacc : accumulate (e0 :: rest') accU = .error .attributeError := by
    cases e0 with
    | vdict fs => simp [isDict] at he0
    | vnone => rfl
    | vbool b => rfl
    | vint n => rfl
    | vstr s => rfl
    | vlist xs => rfl
    | vpos pt => rfl
  simp only [runOneAttempt, hpool, hne, Bool.false_eq_true, if_false, hfil,
    hparse, Option.getD_some, hiter, hacc]

/-- C10: when the filter response text parses as JSON whose first iterated
element is not a mapping (a JSON array of strings, or a bare object whose
keys are iterated), the accumulation loop's `p.get('url')` raises an
`AttributeError` that escapes `improved_search` — the response is not
treated as empty — and only the top-level workflow catches it, returning
`None`. -/
theorem filter_nonmapping_output_raises
    (searchO : Nat → Nat → String → Except PyErr PyVal)
    (filterO : Nat → String → Except PyErr String)
    (jsonLoads : String → Option PyVal) (jsonDumps : List PyVal → String)
    (titles : List String) (company : String) (d : Nat)
    (k2 : Nat) (all2 uniq2 : List PyVal) (text : String) (v e0 : PyVal)
    (rest' : List PyVal)
    (hpool : twoStagePool (searchO 0) jsonLoads titles company d
      = .ok (k2, all2, uniq2))
    (hne : uniq2.isEmpty = false)
    (hfil : filterO 0 (filterPrompt jsonDumps uniq2
      ((d : Int) - ((([] : List PyVal).length : Int)))) = .ok text)
    (hparse : jsonLoads (stripCodeFence (pyStrip text)) = some v)
    (hiter : pyIter v = .ok (e0 :: rest'))
    (he0 : isDict e0 = false) :
    (∀ mr, improved_search searchO filterO jsonLoads jsonDumps titles company d mr
      = .error .attributeError) ∧
    (titles ≠ [] →
      main' (.ok titles) searchO filterO jsonLoads jsonDumps company d = none) := by
  have herr := runOneAttempt_badfilter (searchO 0) (filterO 0) jsonLoads jsonDumps
    titles company d [] [] k2 all2 uniq2 text v e0 rest'
    hpool hne hfil hparse hiter he0
  have h1 : ∀ mr, improved_search searchO filterO jsonLoads jsonDumps titles
      company d mr = .error .attributeError := by
    intro mr
    simp only [improved_search, attemptLoop, herr]
  refine ⟨h1, ?_⟩
  intro hts
  cases titles with
  | nil => exact absurd rfl hts
  | cons t ts =>
    simp only [main', List.isEmpty_cons, Bool.false_eq_true, if_false, h1]

/-- A filter behaviour answering with the text `BAD`. -/
def badFilterO : Nat → String → Except PyErr String := fun _ _ => .ok "BAD"

/-- A `json.loads` behaviour decoding `BAD` to a JSON array of strings. -/
def badLoads : String → Option PyVal :=
  fun s => if s = "BAD" then some (.vlist [.vstr "x"]) else none

/-- Witness for C10: with a filter output parsing to `["x"]`, the workflow
raises and `main` returns `None`. -/
theorem filter_nonmapping_output_raises_witness :
    improved_search okSearchO badFilterO badLoads noDumps ["t"] "c" 1 2
      = .error .attributeError ∧
    main' (.ok ["t"]) okSearchO badFilterO badLoads noDumps "c" 1 = none :=
  ⟨(filter_nonmapping_output_raises okSearchO badFilterO badLoads noDumps
      ["t"] "c" 1 1 [sampleRecord] [sampleRecord] "BAD"
      (.vlist [.vstr "x"]) (.vstr "x") []
      rfl rfl rfl rfl rfl rfl).1 2,
   (filter_nonmapping_output_raises okSearchO badFilterO badLoads noDumps
      ["t"] "c" 1 1 [sampleRecord] [sampleRecord] "BAD"
      (.vlist [.vstr "x"]) (.vstr "x") []
      rfl rfl rfl rfl rfl rfl).2 (by simp)⟩
